import Mathlib

/-!
Verification of the workflow-catalog plugin (src/api.py, src/cf.py).

The development shallowly embeds the Python sources:
* JSON values (`Json`) model Python objects produced by `json.loads`;
  mappings are association lists with string keys (Python dict keys of a
  JSON document are always strings, and a dict's keys are unique).
* Files are records carrying their on-disk name, their literal text, the
  result of `json.loads` on that text (`Except` models a raised
  exception carrying the exception's message), and whether the path is a
  regular file.
* The filesystem for the batch exporter maps a directory path to its
  contents; writes are explicit state passing.
All definitions are translated from the source files; the one
spec-worded definition (`isApiGraphRef`) is marked as such.
-/

/-- A JSON value as produced by Python's `json.loads`.  Object fields are
an association list; keys coming from a real `dict` are unique. -/
inductive Json where
  | null : Json
  | bool : Bool → Json
  | num : Int → Json
  | str : String → Json
  | arr : List Json → Json
  | obj : List (String × Json) → Json

/-- Python `d.get(key)` / `key in d` on a dict: first matching field
(keys of a real dict are unique, so the convention is immaterial). -/
def lookupField : List (String × Json) → String → Option Json
  | [], _ => none
  | (k, v) :: rest, key => if k == key then some v else lookupField rest key

/-- Python `d.get(key)` on a whole value (none when the value is not a dict). -/
def jLookup : Json → String → Option Json
  | Json.obj fs, key => lookupField fs key
  | _, _ => none

/-- Python truthiness of a JSON value (`bool(x)`). -/
def truthy : Json → Bool
  | Json.null => false
  | Json.bool b => b
  | Json.num n => n != 0
  | Json.str s => !(s.toList == [])
  | Json.arr xs => !xs.isEmpty
  | Json.obj fs => !fs.isEmpty

/-- Python `isinstance(x, dict)`. -/
def isObjJson : Json → Bool
  | Json.obj _ => true
  | _ => false

/-- Python `isinstance(x, list)`. -/
def isSeqJson : Json → Bool
  | Json.arr _ => true
  | _ => false

/-- Top-level keys of a value (empty when not a mapping).  A value coming
from a Python dict has these `Nodup`. -/
def topKeys : Json → List String
  | Json.obj fs => fs.map Prod.fst
  | _ => []

/-- Model of `"nodes" in data and isinstance(data.get("nodes"), list)`
(src/api.py line 20, src/cf.py line 33): for a dict the two conditions
collapse to "the value stored under `nodes` is a list". -/
def hasNodesList (fs : List (String × Json)) : Bool :=
  match lookupField fs "nodes" with
  | some (Json.arr _) => true
  | _ => false

/-- Model of `isinstance(v, dict) and "class_type" in v and "inputs" in v`
(src/api.py line 23, src/cf.py line 37). -/
def isNodeValue : Json → Bool
  | Json.obj vfs => (lookupField vfs "class_type").isSome && (lookupField vfs "inputs").isSome
  | _ => false

/-- The classifier `_is_api_graph` (src/api.py lines 17-25 = src/cf.py lines 25-39).
The `isinstance(k, str)` guard of the loop is always true here because
JSON object keys are strings. -/
def isApiGraph : Json → Bool
  | Json.obj fs =>
    if hasNodesList fs then false
    else fs.any (fun kv => isNodeValue kv.2)
  | _ => false

/-- Reference classifier, worded from the specification: false when not a
mapping; false when the mapping contains a key `"nodes"` whose value is a
sequence (this negative check taking precedence); otherwise true iff at
least one entry has a string key and a mapping value containing both a
`class_type` key and an `inputs` key. -/
def isApiGraphRef : Json → Bool
  | Json.obj fs =>
    if fs.any (fun kv => kv.1 == "nodes" && isSeqJson kv.2) then false
    else fs.any (fun kv => isNodeValue kv.2)
  | _ => false

lemma any_nodes_eq_false {fs : List (String × Json)}
    (h : "nodes" ∉ fs.map Prod.fst) :
    fs.any (fun kv => kv.1 == "nodes" && isSeqJson kv.2) = false := by
  induction fs with
  | nil => rfl
  | cons kv rest ih =>
    have h1 : kv.1 ≠ "nodes" := by
      intro e
      exact h (by rw [List.map_cons]; exact e ▸ List.mem_cons_self _ _)
    have h2 : "nodes" ∉ rest.map Prod.fst := by
      intro m
      exact h (by rw [List.map_cons]; exact List.mem_cons_of_mem _ m)
    have hb : (kv.1 == "nodes") = false := by
      exact beq_eq_false_iff_ne.mpr h1
    simp [List.any_cons, hb, ih h2]

lemma hasNodesList_eq_any {fs : List (String × Json)}
    (h : (fs.map Prod.fst).Nodup) :
    hasNodesList fs = fs.any (fun kv => kv.1 == "nodes" && isSeqJson kv.2) := by
  induction fs with
  | nil => rfl
  | cons kv rest ih =>
    obtain ⟨k, v⟩ := kv
    have hnd := h
    rw [List.map_cons, List.nodup_cons] at hnd
    by_cases hk : k = "nodes"
    · subst hk
      have hrest : "nodes" ∉ rest.map Prod.fst := hnd.1
      have hr : rest.any (fun kv => kv.1 == "nodes" && isSeqJson kv.2) = false :=
        any_nodes_eq_false hrest
      show (match lookupField (("nodes", v) :: rest) "nodes" with
            | some (Json.arr _) => true
            | _ => false)
          = ((("nodes", v).1 == "nodes" && isSeqJson v) || _)
      simp only [lookupField, beq_self_eq_true, if_true, List.any_cons, hr]
      cases v <;> simp [isSeqJson]
    · have hb : (k == "nodes") = false := beq_eq_false_iff_ne.mpr hk
      show (match lookupField ((k, v) :: rest) "nodes" with
            | some (Json.arr _) => true
            | _ => false) = _
      simp only [lookupField, hb, if_false, List.any_cons, Bool.false_and,
        Bool.false_or]
      exact ih hnd.2

/-- C1: the classifier `isApiGraph` agrees with the reference definition
worded from the specification, on every JSON value whose top-level keys
are unique (as is the case for every value produced by `json.loads`). -/
theorem c1_classifier_matches_reference (d : Json)
    (h : (topKeys d).Nodup) : isApiGraph d = isApiGraphRef d := by
  cases d with
  | obj fs =>
    have h' : (fs.map Prod.fst).Nodup := h
    show (if hasNodesList fs then false else fs.any (fun kv => isNodeValue kv.2)) = _
    rw [hasNodesList_eq_any h']
    rfl
  | null => rfl
  | bool b => rfl
  | num n => rfl
  | str s => rfl
  | arr xs => rfl

/-- A concrete API-graph document used to witness C1. -/
def c1Doc : Json :=
  Json.obj [("nodes", Json.str "x"),
            ("7", Json.obj [("class_type", Json.str "K"), ("inputs", Json.obj [])])]

theorem c1_classifier_matches_reference_witness :
    (topKeys c1Doc).Nodup ∧ isApiGraph c1Doc = isApiGraphRef c1Doc :=
  ⟨by decide, c1_classifier_matches_reference c1Doc (by decide)⟩

/-! ## Path and string utilities (models of `pathlib` / `str` methods) -/

/-- Split a character list at `/` separators (POSIX path components). -/
def splitSlash : List Char → List (List Char)
  | [] => [[]]
  | c :: rest =>
    let r := splitSlash rest
    if c = '/' then [] :: r
    else
      match r with
      | s :: ss => (c :: s) :: ss
      | [] => [[c]]

/-- The retained components of a path: `pathlib` drops empty components
and `.` components. -/
def pathSegs (s : String) : List (List Char) :=
  (splitSlash s.toList).filter (fun t => decide (t ≠ [] ∧ t ≠ ['.']))

/-- Model of `PurePosixPath(s).name`: the last retained component (empty for
`""`, `"."`, `"/"`). -/
def pathName (s : String) : String :=
  match (pathSegs s).getLast? with
  | some t => String.mk t
  | none => ""

/-- Index of the last `.` in a name, if any. -/
def lastDotIdx (cs : List Char) : Option Nat :=
  match cs.reverse.findIdx? (fun c => c == '.') with
  | some j => some (cs.length - 1 - j)
  | none => none

/-- Model of `PurePath.suffix` on a final component: `name[i:]` for the last dot
index `i` when `0 < i < len(name) - 1`, else `""`. -/
def pathSuffix (name : String) : String :=
  let cs := name.toList
  match lastDotIdx cs with
  | some i => if 0 < i && i + 1 < cs.length then String.mk (cs.drop i) else ""
  | none => ""

/-- Model of `PurePath.stem` on a final component: the name with its suffix
stripped. -/
def pathStem (name : String) : String :=
  let suf := pathSuffix name
  if suf == "" then name
  else String.mk (name.toList.take (name.toList.length - suf.toList.length))

/-- Python `s.endswith(suf)`. -/
def strEndsWith (s suf : String) : Bool :=
  suf.toList.isSuffixOf s.toList

/-- Python `s.lower()` (ASCII; the format values compared against are
ASCII). -/
def pyLower (s : String) : String :=
  String.mk (s.toList.map Char.toLower)

/-- Python string comparison: lexicographic by code point. -/
def lexLe : List Char → List Char → Bool
  | [], _ => true
  | _ :: _, [] => false
  | a :: as, b :: bs =>
    if a.toNat < b.toNat then true
    else if b.toNat < a.toNat then false
    else lexLe as bs

/-- Comparison `a <= b` on Python strings. -/
def strLe (a b : String) : Bool := lexLe a.toList b.toList

/-- Insertion step of `sorted` (any correct comparison sort agrees on
lists of distinct names). -/
def insertName (n : String) : List String → List String
  | [] => [n]
  | m :: rest => if strLe n m then n :: m :: rest else m :: insertName n rest

/-- Python `sorted` on filenames, modelled as insertion sort by code
point order. -/
def sortNames : List String → List String
  | [] => []
  | n :: rest => insertName n (sortNames rest)

lemma insertName_perm (n : String) (l : List String) :
    (insertName n l).Perm (n :: l) := by
  induction l with
  | nil => exact List.Perm.refl _
  | cons m rest ih =>
    show (if strLe n m then n :: m :: rest else m :: insertName n rest).Perm _
    by_cases h : strLe n m = true
    · rw [if_pos h]
    · rw [if_neg h]
      exact ((ih.cons m).trans (List.Perm.swap n m rest))

lemma sortNames_perm (l : List String) : (sortNames l).Perm l := by
  induction l with
  | nil => exact List.Perm.refl _
  | cons n rest ih =>
    exact (insertName_perm n (sortNames rest)).trans (ih.cons n)

/-- Python `s.replace("-", " ")`. -/
def replaceDashSpace (s : String) : String :=
  String.mk (s.toList.map (fun c => if c = '-' then ' ' else c))

/-- Helper for `str.title`: uppercase a character after a non-cased
character, lowercase otherwise. -/
def pyTitleGo : List Char → Bool → List Char
  | [], _ => []
  | c :: rest, prevCased =>
    (if prevCased then c.toLower else c.toUpper) :: pyTitleGo rest c.isAlpha

/-- Python `s.title()` (ASCII model). -/
def pyTitle (s : String) : String := String.mk (pyTitleGo s.toList false)

/-! ## Files and directories -/

/-- One directory entry.  `text` is the file's literal UTF-8 text;
`parsed` is the outcome of `json.loads` on that text (`Except.error`
models a raised exception, carrying the exception's message);
`isRegular` is `Path.is_file()`. -/
structure Entry where
  name : String
  text : String
  parsed : Except String Json
  isRegular : Bool

/-- A directory: its entries, with distinct names in any real directory. -/
abbrev Dir := List Entry

/-- Resolve a name inside a directory (`exists` for a child of the
directory; the entries `""`, `"."` and `".."` resolve to directories,
never to a regular file, and are modelled by absence). -/
def dirFind (d : Dir) (n : String) : Option Entry :=
  d.find? (fun e => e.name == n)

/-- An HTTP response: status code and body text. -/
structure Resp where
  status : Nat
  body : String

/-! ## Catalog — single retrieval (src/api.py lines 104-128) -/

/-- Body of `get_workflow` after the name and format have been
extracted: existence / regular-file / `.json`-suffix check, then read
and parse, then the three format branches.  Note the source parses the
JSON before the `raw` branch, so a parse failure yields 500 even for
`format=raw`; and the invalid-format check sits after the parse. -/
def get_workflow_core (dir : Dir) (name : String) (fmt : String) : Resp :=
  match dirFind dir name with
  | none => ⟨404, "Workflow not found"⟩
  | some e =>
    if e.isRegular && (pathSuffix name == ".json") then
      match e.parsed with
      | Except.error msg => ⟨500, "Failed to read workflow: " ++ msg⟩
      | Except.ok data =>
        if fmt == "raw" then ⟨200, e.text⟩
        else if fmt == "api" then
          if isApiGraph data then ⟨200, e.text⟩
          else ⟨422, "Workflow is a UI workflow, not an API graph. Export API (JSON) and save as .api.json."⟩
        else ⟨400, "Invalid format; use raw|api"⟩
    else ⟨404, "Workflow not found"⟩

/-- The handler `get_workflow` (src/api.py lines 104-128): takes only the final path
component of the requested name (`Path(...).name`), lowercases the
`format` query value (default `raw`), and joins the component to the
workflows directory. -/
def get_workflow (dir : Dir) (nameArg : String) (fmtArg : Option String) : Resp :=
  get_workflow_core dir (pathName nameArg) (pyLower (fmtArg.getD "raw"))

/-! ## Lemmas about path components -/

lemma splitSlash_no_slash (cs : List Char) :
    ∀ t ∈ splitSlash cs, '/' ∉ t := by
  induction cs with
  | nil =>
    intro t ht
    have : t = [] := by
      simpa [splitSlash] using ht
    subst this; simp
  | cons c rest ih =>
    intro t ht
    by_cases hc : c = '/'
    · subst hc
      rw [show splitSlash ('/' :: rest) = [] :: splitSlash rest from by
        simp [splitSlash]] at ht
      rcases List.mem_cons.mp ht with h0 | h0
      · subst h0; simp
      · exact ih t h0
    · cases hr : splitSlash rest with
      | nil =>
        rw [show splitSlash (c :: rest) = [[c]] from by
          simp [splitSlash, hc, hr]] at ht
        have : t = [c] := by simpa using ht
        subst this
        intro hm
        rcases List.mem_singleton.mp hm with h0
        exact hc h0.symm
      | cons s ss =>
        rw [show splitSlash (c :: rest) = (c :: s) :: ss from by
          simp [splitSlash, hc, hr]] at ht
        rcases List.mem_cons.mp ht with h0 | h0
        · subst h0
          intro hm
          rcases List.mem_cons.mp hm with h1 | h1
          · exact hc h1.symm
          · exact ih s (hr ▸ List.mem_cons_self _ _) h1
        · exact ih t (hr ▸ List.mem_cons_of_mem _ h0)

lemma splitSlash_of_no_slash (cs : List Char) (h : '/' ∉ cs) :
    splitSlash cs = [cs] := by
  induction cs with
  | nil => rfl
  | cons c rest ih =>
    have hc : c ≠ '/' := fun e => h (e ▸ List.mem_cons_self _ _)
    have hr : '/' ∉ rest := fun m => h (List.mem_cons_of_mem _ m)
    simp [splitSlash, hc, ih hr]

lemma pathName_idem (s : String) : pathName (pathName s) = pathName s := by
  have hmain : ∀ t, (pathSegs s).getLast? = some t →
      pathName (String.mk t) = String.mk t := by
    intro t ht
    have htmem : t ∈ pathSegs s := by
      rcases List.getLast?_eq_some_iff.mp ht with ⟨ys, hy⟩
      rw [hy]
      exact List.mem_append.mpr (Or.inr (List.mem_cons_self _ _))
    have htmem' : t ∈ List.filter (fun u => decide (u ≠ [] ∧ u ≠ ['.']))
        (splitSlash s.toList) := htmem
    have hp := List.of_mem_filter htmem'
    have hmem2 : t ∈ splitSlash s.toList := List.mem_of_mem_filter htmem'
    have hns : '/' ∉ t := splitSlash_no_slash _ t hmem2
    show pathName (String.mk t) = String.mk t
    unfold pathName pathSegs
    have h1 : (String.mk t).toList = t := rfl
    rw [h1, splitSlash_of_no_slash t hns]
    rw [List.filter_cons, if_pos hp, List.filter_nil]
    rfl
  cases h : (pathSegs s).getLast? with
  | none =>
    have hs : pathName s = "" := by unfold pathName; rw [h]
    rw [hs]
    decide
  | some t =>
    have hs : pathName s = String.mk t := by unfold pathName; rw [h]
    rw [hs]
    exact hmain t h

/-- The requested name contains a parent-directory (`..`) component. -/
def hasParentSeg (s : String) : Bool :=
  (splitSlash s.toList).any (fun t => t == ['.', '.'])

lemma pyLower_raw : pyLower "raw" = "raw" := by decide

lemma pyLower_api : pyLower "api" = "api" := by decide

/-- C2 (counterexample): a regular `.json` file whose text is not valid
JSON is *not* returned literally under `format=raw`; the handler parses
the JSON before the `raw` branch, so the request fails with 500. -/
def c2BadEntry : Entry :=
  ⟨"bad.json", "not json", Except.error "Expecting value", true⟩

theorem c2_raw_counterexample :
    (get_workflow [c2BadEntry] "bad.json" (some "raw")).status = 500 ∧
    (get_workflow [c2BadEntry] "bad.json" (some "raw")).body ≠ c2BadEntry.text := by
  exact ⟨by decide, by decide⟩

/-- C2 (amended): for every file inside the workflows directory that
exists, is a regular file, has suffix `.json`, and whose text parses as
JSON, `get_workflow` with `format=raw` returns the file's literal text
as-is, regardless of the parsed document's shape.  (When the text does
not parse, the request fails with 500 instead.) -/
theorem c2_raw_returns_literal_text (dir : Dir) (nameArg : String)
    (e : Entry) (d : Json)
    (hfind : dirFind dir (pathName nameArg) = some e)
    (hreg : e.isRegular = true)
    (hsuf : pathSuffix (pathName nameArg) = ".json")
    (hok : e.parsed = Except.ok d) :
    get_workflow dir nameArg (some "raw") = ⟨200, e.text⟩ := by
  show get_workflow_core dir (pathName nameArg) (pyLower "raw") = _
  rw [pyLower_raw]
  unfold get_workflow_core
  rw [hfind]
  simp only [hreg, hsuf, hok, beq_self_eq_true, Bool.and_self, if_true]

def c2GoodEntry : Entry := ⟨"x.json", "13", Except.ok (Json.num 13), true⟩

theorem c2_raw_returns_literal_text_witness :
    get_workflow [c2GoodEntry] "x.json" (some "raw") = ⟨200, c2GoodEntry.text⟩ :=
  c2_raw_returns_literal_text [c2GoodEntry] "x.json" c2GoodEntry (Json.num 13)
    rfl rfl (by decide) rfl

/-- C5 (counterexample): the unprocessable-content failure for a
UI-shaped file under `format=api` does not carry the instruction text
quoted by the claim — the source's message reads "Export API (JSON) and
save as .api.json." instead. -/
def c5UiEntry : Entry :=
  ⟨"u.json", "x", Except.ok (Json.obj [("nodes", Json.arr [])]), true⟩

theorem c5_api_message_counterexample :
    (get_workflow [c5UiEntry] "u.json" (some "api")).status = 422 ∧
    (get_workflow [c5UiEntry] "u.json" (some "api")).body ≠
      "Workflow is a UI workflow, not an API graph. Export API and save as *.api.json." := by
  exact ⟨by decide, by decide⟩

/-- C5 (amended): for every existing regular `.json` file whose text
parses, `format=api` returns the literal text when the classifier
accepts the document, and otherwise fails with 422 carrying the
instruction "Workflow is a UI workflow, not an API graph. Export API
(JSON) and save as .api.json." and no document body; the handler never
rewrites a UI workflow into API form. -/
theorem c5_api_format_validation (dir : Dir) (nameArg : String)
    (e : Entry) (d : Json)
    (hfind : dirFind dir (pathName nameArg) = some e)
    (hreg : e.isRegular = true)
    (hsuf : pathSuffix (pathName nameArg) = ".json")
    (hok : e.parsed = Except.ok d) :
    (isApiGraph d = true → get_workflow dir nameArg (some "api") = ⟨200, e.text⟩)
    ∧ (isApiGraph d = false →
        get_workflow dir nameArg (some "api")
          = ⟨422, "Workflow is a UI workflow, not an API graph. Export API (JSON) and save as .api.json."⟩) := by
  have hbase : get_workflow dir nameArg (some "api")
      = get_workflow_core dir (pathName nameArg) "api" := by
    show get_workflow_core dir (pathName nameArg) (pyLower "api") = _
    rw [pyLower_api]
  constructor
  · intro hapi
    rw [hbase]
    unfold get_workflow_core
    rw [hfind]
    simp only [hreg, hsuf, hok, beq_self_eq_true, Bool.and_self, if_true, hapi]
    rfl
  · intro hui
    rw [hbase]
    unfold get_workflow_core
    rw [hfind]
    simp only [hreg, hsuf, hok, beq_self_eq_true, Bool.and_self, if_true, hui]
    rfl

theorem c5_api_format_validation_witness :
    get_workflow [c5UiEntry] "u.json" (some "api")
      = ⟨422, "Workflow is a UI workflow, not an API graph. Export API (JSON) and save as .api.json."⟩ :=
  (c5_api_format_validation [c5UiEntry] "u.json" c5UiEntry
    (Json.obj [("nodes", Json.arr [])]) rfl rfl (by decide) rfl).2 (by decide)

/-- C9: the `format` query value is lowercased before comparison, so any
value lowercasing to `raw` behaves like `raw`, any value lowercasing to
`api` behaves like `api`, and for a parseable `.json` file every other
value yields the 400 bad-request failure. -/
theorem c9_format_case_insensitive (dir : Dir) (nameArg : String)
    (e : Entry) (d : Json) (v : String)
    (hfind : dirFind dir (pathName nameArg) = some e)
    (hreg : e.isRegular = true)
    (hsuf : pathSuffix (pathName nameArg) = ".json")
    (hok : e.parsed = Except.ok d) :
    (pyLower v = "raw" →
      get_workflow dir nameArg (some v) = get_workflow dir nameArg (some "raw"))
    ∧ (pyLower v = "api" →
      get_workflow dir nameArg (some v) = get_workflow dir nameArg (some "api"))
    ∧ (pyLower v ≠ "raw" → pyLower v ≠ "api" →
      get_workflow dir nameArg (some v) = ⟨400, "Invalid format; use raw|api"⟩) := by
  refine ⟨fun hv => ?_, fun hv => ?_, fun hv1 hv2 => ?_⟩
  · show get_workflow_core dir (pathName nameArg) (pyLower v)
      = get_workflow_core dir (pathName nameArg) (pyLower "raw")
    rw [hv, pyLower_raw]
  · show get_workflow_core dir (pathName nameArg) (pyLower v)
      = get_workflow_core dir (pathName nameArg) (pyLower "api")
    rw [hv, pyLower_api]
  · show get_workflow_core dir (pathName nameArg) (pyLower v) = _
    unfold get_workflow_core
    rw [hfind]
    simp only [hreg, hsuf, hok, beq_self_eq_true, Bool.and_self, if_true]
    rw [if_neg, if_neg]
    · intro hb
      exact hv2 (eq_of_beq hb)
    · intro hb
      exact hv1 (eq_of_beq hb)

theorem c9_format_case_insensitive_witness :
    get_workflow [c2GoodEntry] "x.json" (some "RAW")
      = get_workflow [c2GoodEntry] "x.json" (some "raw") :=
  (c9_format_case_insensitive [c2GoodEntry] "x.json" c2GoodEntry (Json.num 13)
    "RAW" rfl rfl (by decide) rfl).1 (by decide)

/-- C4 (counterexample): a request whose name contains a
parent-directory segment does not always yield not-found — when the
final component names an existing regular `.json` file of the workflows
directory, that in-directory file's content is returned (status 200). -/
def c4Entry : Entry := ⟨"x.json", "7", Except.ok (Json.num 7), true⟩

theorem c4_traversal_counterexample :
    hasParentSeg "../x.json" = true
    ∧ (get_workflow [c4Entry] "../x.json" (some "raw")).status = 200
    ∧ (get_workflow [c4Entry] "../x.json" (some "raw")).body = c4Entry.text := by
  exact ⟨by decide, by decide, by decide⟩

/-- C4 (amended): for every requested filename containing
parent-directory segments, retrieval joins only the final path component
to the workflows directory — the result equals retrieval of that
component alone, so no file outside the directory is ever read; and
whenever the final component does not name an existing regular `.json`
file of the directory, the result is the not-found failure. -/
theorem c4_traversal_confined (dir : Dir) (nameArg : String)
    (fmtArg : Option String)
    (hseg : hasParentSeg nameArg = true) :
    get_workflow dir nameArg fmtArg = get_workflow dir (pathName nameArg) fmtArg
    ∧ ((∀ e, dirFind dir (pathName nameArg) = some e →
          ¬(e.isRegular = true ∧ pathSuffix (pathName nameArg) = ".json")) →
        get_workflow dir nameArg fmtArg = ⟨404, "Workflow not found"⟩) := by
  constructor
  · show get_workflow_core dir (pathName nameArg) _
      = get_workflow_core dir (pathName (pathName nameArg)) _
    rw [pathName_idem]
  · intro hmiss
    show get_workflow_core dir (pathName nameArg) _ = _
    unfold get_workflow_core
    cases hf : dirFind dir (pathName nameArg) with
    | none => rfl
    | some e =>
      have hne := hmiss e hf
      have hcond : (e.isRegular && (pathSuffix (pathName nameArg) == ".json")) = false := by
        cases hr : e.isRegular with
        | false => rfl
        | true =>
          cases hs : (pathSuffix (pathName nameArg) == ".json") with
          | false => rfl
          | true => exact absurd ⟨hr, eq_of_beq hs⟩ hne
      simp only [hcond, Bool.false_eq_true, if_false]

theorem c4_traversal_confined_witness :
    hasParentSeg "../../secret.json" = true
    ∧ get_workflow [] "../../secret.json" (some "raw") = ⟨404, "Workflow not found"⟩ :=
  ⟨by decide,
    (c4_traversal_confined [] "../../secret.json" (some "raw") (by decide)).2
      (fun e h => nomatch h)⟩

/-! ## Catalog — listing (src/api.py lines 33-101) -/

/-- Python type name of a JSON value, used in the modelled
`AttributeError` message. -/
def pyTypeName : Json → String
  | Json.null => "NoneType"
  | Json.bool _ => "bool"
  | Json.num _ => "int"
  | Json.str _ => "str"
  | Json.arr _ => "list"
  | Json.obj _ => "dict"

/-- The metadata record built by `_meta_from`. -/
structure MetaR where
  id : Json
  title : Json
  description : Json
  tags : Json
  version : Json

/-- The function `_meta_from` (src/api.py lines 33-47).  `meta = data.get("cvb_meta",
{}) or {}`; when the resulting `meta` is a truthy non-mapping, the
subsequent `meta.get("title")` raises `AttributeError` (its message is
modelled by the value's type name). -/
def metaFrom (stem : String) (data : Json) : Except String MetaR :=
  let meta0 := (jLookup data "cvb_meta").getD (Json.obj [])
  let meta := if truthy meta0 then meta0 else Json.obj []
  match meta with
  | Json.obj mfs =>
    let titleV := (lookupField mfs "title").getD Json.null
    let idV := (lookupField mfs "id").getD Json.null
    Except.ok
      { id := if truthy idV then idV else Json.str stem
        title := if truthy titleV then titleV
                 else Json.str (pyTitle (replaceDashSpace stem))
        description := (lookupField mfs "description").getD (Json.str "")
        tags := (lookupField mfs "tags").getD (Json.arr [])
        version := (lookupField mfs "version").getD (Json.str "1") }
  | other => Except.error (pyTypeName other ++ " object has no attribute get")

/-- One listing item.  `tags`/`version` are absent (`none`) on the
degraded error entry, which is the only entry carrying `error = True`. -/
structure CatalogEntry where
  id : Json
  title : Json
  description : Json
  tags : Option Json
  version : Option Json
  filename : String
  is_api : Bool
  raw_url : String
  template_url : String
  error : Bool

/-- The degraded entry emitted when parsing or metadata extraction
raises (src/api.py lines 89-99). -/
def degradedEntry (p : Entry) (msg : String) : CatalogEntry :=
  { id := Json.str (pathStem p.name)
    title := Json.str (pathStem p.name)
    description := Json.str ("Failed to parse: " ++ msg)
    tags := none
    version := none
    filename := p.name
    is_api := false
    raw_url := "/cvb/workflows/" ++ p.name ++ "?format=raw"
    template_url := "/cvb/workflows/" ++ p.name ++ "?format=api"
    error := true }

/-- Glob filter of `_list_files` (src/api.py lines 50-51):
`WORKFLOWS_DIR.glob("*.json")` matches every name ending in `.json`,
hidden dotfiles included; `is_file()` then keeps regular files. -/
def listedJsonName (n : String) : Bool :=
  strEndsWith n ".json"

/-- Insertion step for sorting entries by name. -/
def insertEntry (e : Entry) : List Entry → List Entry
  | [] => [e]
  | f :: rest =>
    if strLe e.name f.name then e :: f :: rest else f :: insertEntry e rest

/-- Sort directory entries by filename (Python `sorted` over paths with a
common directory prefix). -/
def sortEntries : List Entry → List Entry
  | [] => []
  | e :: rest => insertEntry e (sortEntries rest)

/-- The listing `_list_files()` (src/api.py lines 50-51). -/
def listedFiles (dir : Dir) : List Entry :=
  sortEntries (dir.filter (fun e => listedJsonName e.name && e.isRegular))

/-- The per-file body of `list_workflows` (src/api.py lines 58-99).
`files` is the full sorted listing (the `names` dict).  On success the
companion `<stem>.api.json` is looked up among the listed files when the
file is not already API; the companion's re-parse is attempted and, on
success, forces `is_api` (`... or True`), while a raised exception is
swallowed — leaving `is_api` at its prior value `False`. -/
def entryFor (files : List Entry) (p : Entry) : CatalogEntry :=
  match p.parsed with
  | Except.error msg => degradedEntry p msg
  | Except.ok data =>
    match metaFrom (pathStem p.name) data with
    | Except.error msg => degradedEntry p msg
    | Except.ok m =>
      let isApi0 := isApiGraph data || strEndsWith (pathStem p.name) ".api"
      let companion : Option Entry :=
        if isApi0 then none
        else files.find? (fun c => c.name == pathStem p.name ++ ".api.json")
      let isApi :=
        match companion with
        | some c =>
          match c.parsed with
          | Except.ok cd => isApiGraph cd || true
          | Except.error _ => isApi0
        | none => isApi0
      { id := m.id
        title := m.title
        description := m.description
        tags := some m.tags
        version := some m.version
        filename := p.name
        is_api := isApi
        raw_url := "/cvb/workflows/" ++ p.name ++ "?format=raw"
        template_url :=
          match companion with
          | some c => "/cvb/workflows/" ++ c.name ++ "?format=api"
          | none => "/cvb/workflows/" ++ p.name ++ "?format=api"
        error := false }

/-- The handler `list_workflows` (src/api.py lines 54-101): one item per listed
file, in sorted filename order. -/
def list_workflows (dir : Dir) : List CatalogEntry :=
  (listedFiles dir).map (fun p => entryFor (listedFiles dir) p)

lemma find?_eq_some_of_unique {α : Type} (p : α → Bool) (l : List α) (a : α)
    (ha : a ∈ l) (hpa : p a = true)
    (huniq : ∀ b ∈ l, p b = true → b = a) :
    l.find? p = some a := by
  induction l with
  | nil => cases ha
  | cons x xs ih =>
    by_cases hx : p x = true
    · have hxa : x = a := huniq x (List.mem_cons_self _ _) hx
      rw [List.find?_cons_of_pos _ hx, hxa]
    · have hxb : p x = false := Bool.eq_false_iff.mpr hx
      have hxa : x ≠ a := fun e => hx (e ▸ hpa)
      have ha' : a ∈ xs := by
        rcases List.mem_cons.mp ha with h0 | h0
        · exact absurd h0.symm hxa
        · exact h0
      rw [List.find?_cons_of_neg _ hx]
      exact ih ha' (fun b hb hpb => huniq b (List.mem_cons_of_mem _ hb) hpb)

/-- C3 (amended): for a listed file whose parsed document is not an API
graph and whose stem does not end in `.api`, when a companion
`<stem>.api.json` is present in the same listing, the emitted entry's
`template_url` targets the companion with `format=api`; `is_api` becomes
true whenever the companion can be loaded and parsed (regardless of the
companion's parsed shape, due to `... or True`), but when reading or
parsing the companion fails the swallowed exception leaves `is_api`
false. -/
theorem c3_companion_detection (dir : Dir) (p c : Entry) (d : Json) (m : MetaR)
    (hp : p ∈ listedFiles dir)
    (hnodup : ((listedFiles dir).map Entry.name).Nodup)
    (hpd : p.parsed = Except.ok d)
    (hm : metaFrom (pathStem p.name) d = Except.ok m)
    (hnapi : isApiGraph d = false)
    (hstem : strEndsWith (pathStem p.name) ".api" = false)
    (hc : c ∈ listedFiles dir)
    (hcn : c.name = pathStem p.name ++ ".api.json") :
    entryFor (listedFiles dir) p ∈ list_workflows dir
    ∧ (entryFor (listedFiles dir) p).template_url
        = "/cvb/workflows/" ++ c.name ++ "?format=api"
    ∧ (∀ cd, c.parsed = Except.ok cd → (entryFor (listedFiles dir) p).is_api = true)
    ∧ (∀ msg, c.parsed = Except.error msg →
        (entryFor (listedFiles dir) p).is_api = false) := by
  have hfindc : (listedFiles dir).find?
      (fun e => e.name == pathStem p.name ++ ".api.json") = some c := by
    apply find?_eq_some_of_unique _ _ c hc
    · exact (beq_iff_eq.mpr hcn)
    · intro b hb hpb
      exact List.inj_on_of_nodup_map hnodup hb hc ((eq_of_beq hpb).trans hcn.symm)
  have hent : entryFor (listedFiles dir) p =
      { id := m.id
        title := m.title
        description := m.description
        tags := some m.tags
        version := some m.version
        filename := p.name
        is_api :=
          match c.parsed with
          | Except.ok cd => isApiGraph cd || true
          | Except.error _ => false
        raw_url := "/cvb/workflows/" ++ p.name ++ "?format=raw"
        template_url := "/cvb/workflows/" ++ c.name ++ "?format=api"
        error := false } := by
    unfold entryFor
    simp only [hpd, hm]
    simp only [hnapi, hstem, Bool.or_self, Bool.false_eq_true, if_false, hfindc]
  refine ⟨?_, ?_, ?_, ?_⟩
  · exact List.mem_map_of_mem _ hp
  · rw [hent]
  · intro cd hcd
    rw [hent]
    simp only [hcd, Bool.or_true]
  · intro msg hmsg
    rw [hent]
    simp only [hmsg]

/-- Entries used by the C3 counterexample and witness: a parseable UI
file `a.json` next to an unparseable companion `a.api.json`. -/
def c3UiFile : Entry :=
  ⟨"a.json", "x", Except.ok (Json.obj [("x", Json.num 1)]), true⟩

/-- The companion whose load raises (invalid JSON). -/
def c3BadCompanion : Entry :=
  ⟨"a.api.json", "oops", Except.error "Expecting value", true⟩

/-- C3 (counterexample): with `a.json` (UI, parseable) and `a.api.json`
(unparseable) in the same directory, the entry for `a.json` targets the
companion in `template_url` but carries `is_api = false`, contradicting
the claim that `is_api = true` holds even when parsing the companion
fails. -/
theorem c3_companion_counterexample :
    (list_workflows [c3UiFile, c3BadCompanion]).map
        (fun e => (e.filename, e.is_api, e.template_url))
      = [("a.api.json", false, "/cvb/workflows/a.api.json?format=api"),
         ("a.json", false, "/cvb/workflows/a.api.json?format=api")] := by
  decide

/-- A parseable companion for the C3 witness. -/
def c3GoodCompanion : Entry :=
  ⟨"b.api.json", "y", Except.ok (Json.obj [("y", Json.num 2)]), true⟩

/-- The UI file next to the parseable companion for the C3 witness. -/
def c3UiFileB : Entry :=
  ⟨"b.json", "x", Except.ok (Json.obj [("x", Json.num 1)]), true⟩

/-- The metadata derived for `b.json` (all fallbacks). -/
def c3MetaB : MetaR :=
  { id := Json.str "b"
    title := Json.str "B"
    description := Json.str ""
    tags := Json.arr []
    version := Json.str "1" }

theorem c3_companion_detection_witness :
    entryFor (listedFiles [c3UiFileB, c3GoodCompanion]) c3UiFileB
        ∈ list_workflows [c3UiFileB, c3GoodCompanion]
    ∧ (entryFor (listedFiles [c3UiFileB, c3GoodCompanion]) c3UiFileB).template_url
        = "/cvb/workflows/" ++ c3GoodCompanion.name ++ "?format=api"
    ∧ (∀ cd, c3GoodCompanion.parsed = Except.ok cd →
        (entryFor (listedFiles [c3UiFileB, c3GoodCompanion]) c3UiFileB).is_api = true)
    ∧ (∀ msg, c3GoodCompanion.parsed = Except.error msg →
        (entryFor (listedFiles [c3UiFileB, c3GoodCompanion]) c3UiFileB).is_api = false) :=
  c3_companion_detection [c3UiFileB, c3GoodCompanion] c3UiFileB c3GoodCompanion
    (Json.obj [("x", Json.num 1)]) c3MetaB
    (by exact List.mem_cons_of_mem _ (List.mem_cons_self _ _))
    (by decide) rfl rfl (by decide) (by decide)
    (by exact List.mem_cons_self _ _) (by decide)

/-- C10: a listed file that parses but whose top-level `cvb_meta` value
is a truthy non-mapping makes the metadata lookup raise, so the file is
emitted as the degraded error entry: `error = true`, `is_api = false`
and a description beginning "Failed to parse:". -/
theorem c10_truthy_nonmapping_meta_degrades (dir : Dir) (p : Entry)
    (d v : Json)
    (hp : p ∈ listedFiles dir)
    (hpd : p.parsed = Except.ok d)
    (hv : jLookup d "cvb_meta" = some v)
    (htr : truthy v = true)
    (hnobj : isObjJson v = false) :
    entryFor (listedFiles dir) p ∈ list_workflows dir
    ∧ (entryFor (listedFiles dir) p).error = true
    ∧ (entryFor (listedFiles dir) p).is_api = false
    ∧ ∃ rest, (entryFor (listedFiles dir) p).description
        = Json.str ("Failed to parse: " ++ rest) := by
  have hm : metaFrom (pathStem p.name) d
      = Except.error (pyTypeName v ++ " object has no attribute get") := by
    unfold metaFrom
    rw [hv]
    simp only [Option.getD_some]
    rw [if_pos htr]
    cases v with
    | obj fs => simp [isObjJson] at hnobj
    | null => rfl
    | bool b => rfl
    | num n => rfl
    | str s => rfl
    | arr xs => rfl
  have hent : entryFor (listedFiles dir) p
      = degradedEntry p (pyTypeName v ++ " object has no attribute get") := by
    unfold entryFor
    simp only [hpd, hm]
  refine ⟨List.mem_map_of_mem _ hp, ?_, ?_, ?_⟩
  · rw [hent]; rfl
  · rw [hent]; rfl
  · exact ⟨pyTypeName v ++ " object has no attribute get", by rw [hent]; rfl⟩

/-- File with a truthy non-mapping `cvb_meta`, for the C10 witness. -/
def c10File : Entry :=
  ⟨"t.json", "x", Except.ok (Json.obj [("cvb_meta", Json.str "v1")]), true⟩

theorem c10_truthy_nonmapping_meta_degrades_witness :
    entryFor (listedFiles [c10File]) c10File ∈ list_workflows [c10File]
    ∧ (entryFor (listedFiles [c10File]) c10File).error = true
    ∧ (entryFor (listedFiles [c10File]) c10File).is_api = false
    ∧ ∃ rest, (entryFor (listedFiles [c10File]) c10File).description
        = Json.str ("Failed to parse: " ++ rest) :=
  c10_truthy_nonmapping_meta_degrades [c10File] c10File
    (Json.obj [("cvb_meta", Json.str "v1")]) (Json.str "v1")
    (by exact List.mem_cons_self _ _) rfl rfl (by decide) rfl

/-! ## Batch exporter (src/cf.py lines 42-89) -/

/-- The function `_target_name` (src/cf.py lines 42-48): keep `foo.api.json`
unchanged, otherwise produce `<stem>.api.json`. -/
def targetName (srcName : String) : String :=
  let n := pathName srcName
  if pathSuffix n == ".json" && strEndsWith (pathStem n) ".api" then n
  else pathStem n ++ ".api.json"

/-- Lower hex digit. -/
def hexDigit (n : Nat) : Char :=
  if n < 10 then Char.ofNat (48 + n) else Char.ofNat (87 + n)

/-- JSON string escaping of one character (`ensure_ascii=False`: only
the quote, the backslash and control characters are escaped). -/
def escChar (c : Char) : List Char :=
  if c = '"' then ['\\', '"']
  else if c = '\\' then ['\\', '\\']
  else if c = '\n' then ['\\', 'n']
  else if c = '\t' then ['\\', 't']
  else if c = '\r' then ['\\', 'r']
  else if c = Char.ofNat 8 then ['\\', 'b']
  else if c = Char.ofNat 12 then ['\\', 'f']
  else if c.toNat < 32 then
    ['\\', 'u', '0', '0', hexDigit (c.toNat / 16), hexDigit (c.toNat % 16)]
  else [c]

/-- A JSON string literal. -/
def escapeJString (s : String) : List Char :=
  '"' :: (s.toList.map escChar).flatten ++ ['"']

/-- Indentation. -/
def spacesN (n : Nat) : List Char := List.replicate n ' '

mutual

/-- Serialization `json.dumps(data, ensure_ascii=False, indent=2)` at a given
indentation level (model of the standard-library serializer). -/
def dumpsVal : Nat → Json → List Char
  | _, Json.null => ['n', 'u', 'l', 'l']
  | _, Json.bool true => ['t', 'r', 'u', 'e']
  | _, Json.bool false => ['f', 'a', 'l', 's', 'e']
  | _, Json.num n => (toString n).toList
  | _, Json.str s => escapeJString s
  | _, Json.arr [] => ['[', ']']
  | ind, Json.arr (x :: xs) =>
    ['[', '\n'] ++ joinArr (ind + 2) x xs ++ '\n' :: spacesN ind ++ [']']
  | _, Json.obj [] => [Char.ofNat 123, Char.ofNat 125]
  | ind, Json.obj (f :: fsr) =>
    Char.ofNat 123 :: '\n' :: joinObj (ind + 2) f fsr
      ++ '\n' :: spacesN ind ++ [Char.ofNat 125]
termination_by ind j => sizeOf j

/-- Comma-and-newline separated array items, each indented. -/
def joinArr : Nat → Json → List Json → List Char
  | ind, x, [] => spacesN ind ++ dumpsVal ind x
  | ind, x, y :: ys =>
    spacesN ind ++ dumpsVal ind x ++ ',' :: '\n' :: joinArr ind y ys
termination_by ind x xs => sizeOf x + sizeOf xs

/-- Comma-and-newline separated object items, each indented, with the
`": "` key separator. -/
def joinObj : Nat → (String × Json) → List (String × Json) → List Char
  | ind, (k, v), [] => spacesN ind ++ escapeJString k ++ ':' :: ' ' :: dumpsVal ind v
  | ind, (k, v), f :: fsr =>
    spacesN ind ++ escapeJString k ++ ':' :: ' ' :: dumpsVal ind v
      ++ ',' :: '\n' :: joinObj ind f fsr
termination_by ind f fsr => sizeOf f + sizeOf fsr

end

/-- Serialization `json.dumps(data, ensure_ascii=False, indent=2)`. -/
def dumps (d : Json) : String := String.mk (dumpsVal 0 d)

/-- The filesystem seen by the batch exporter: contents per directory
path (a missing directory is the empty list; `dest_dir.mkdir` is a
no-op in this view). -/
abbrev FS := String → Dir

/-- Model of `Path.write_text`: truncate the existing entry of that name (making
it a regular file) or create a new one.  The written entry's `parsed`
field records `json.loads` of the written serialization, which for a
serialized document is the document itself. -/
def dirSet : Dir → String → String → Except String Json → Dir
  | [], n, t, pr => [⟨n, t, pr, true⟩]
  | e :: rest, n, t, pr =>
    if e.name == n then ⟨n, t, pr, true⟩ :: rest
    else e :: dirSet rest n t pr

/-- Write one file at `dirPath/n`. -/
def fsWrite (fs : FS) (dirPath n t : String) (pr : Except String Json) : FS :=
  fun q => if q == dirPath then dirSet (fs q) n t pr else fs q

/-- State threaded through the conversion loop: the filesystem and the
two result lists. -/
structure CState where
  fs : FS
  converted : List String
  skipped : List String

/-- One iteration of the loop of `convert_all` (src/cf.py lines 70-87)
on the source filename `n`: skip non-regular paths silently; parse
failures go to `skipped`; API graphs are written to the destination
under `_target_name` unless the destination exists and `overwrite` is
false (then nothing is recorded); UI documents go to `skipped`. -/
def convStep (srcPath destPath : String) (overwrite : Bool)
    (st : CState) (n : String) : CState :=
  match dirFind (st.fs srcPath) n with
  | none => st
  | some e =>
    if e.isRegular then
      match e.parsed with
      | Except.error _ => { st with skipped := st.skipped ++ [n] }
      | Except.ok d =>
        if isApiGraph d then
          let out := targetName n
          match dirFind (st.fs destPath) out, overwrite with
          | some _, false => st
          | _, _ =>
            { st with
              fs := fsWrite st.fs destPath out (dumps d) (Except.ok d)
              converted := st.converted ++ [out] }
        else { st with skipped := st.skipped ++ [n] }
    else st

/-- The batch exporter `convert_all` (src/cf.py lines 51-89): the glob matches are listed
once up front (the generator is forced by `sorted`), sorted by name, and
processed in order; reads happen per iteration against the current
filesystem. -/
def convert_all (fs0 : FS) (srcPath destPath : String) (overwrite : Bool)
    (globMatch : String → Bool) : CState :=
  (sortNames (((fs0 srcPath).filter (fun e => globMatch e.name)).map Entry.name)).foldl
    (convStep srcPath destPath overwrite) ⟨fs0, [], []⟩


/-! ## Lemmas about the conversion loop -/

/-- A source name that the loop records under `skipped`: regular file
whose parse fails or whose parsed document is not an API graph. -/
def skipName (dir0 : Dir) (n : String) : Bool :=
  match dirFind dir0 n with
  | some e =>
    e.isRegular &&
      (match e.parsed with
       | Except.error _ => true
       | Except.ok d => !isApiGraph d)
  | none => false

/-- A source name that the loop treats as an API graph: regular file
whose parsed document the classifier accepts. -/
def convName (dir0 : Dir) (n : String) : Bool :=
  match dirFind dir0 n with
  | some e =>
    e.isRegular &&
      (match e.parsed with
       | Except.ok d => isApiGraph d
       | Except.error _ => false)
  | none => false

lemma fsWrite_ne (fs : FS) (dp n t : String) (pr : Except String Json)
    (q : String) (hq : q ≠ dp) : fsWrite fs dp n t pr q = fs q := by
  unfold fsWrite
  rw [if_neg]
  intro hb
  exact hq (eq_of_beq hb)

lemma fsWrite_self (fs : FS) (dp n t : String) (pr : Except String Json) :
    fsWrite fs dp n t pr dp = dirSet (fs dp) n t pr := by
  unfold fsWrite
  rw [if_pos (beq_self_eq_true dp)]

lemma convStep_find_none {srcPath destPath : String} {ow : Bool} {st : CState}
    {n : String} (hf : dirFind (st.fs srcPath) n = none) :
    convStep srcPath destPath ow st n = st := by
  unfold convStep
  simp only [hf]

lemma convStep_not_regular {srcPath destPath : String} {ow : Bool} {st : CState}
    {n : String} {e : Entry} (hf : dirFind (st.fs srcPath) n = some e)
    (hr : e.isRegular = false) :
    convStep srcPath destPath ow st n = st := by
  unfold convStep
  simp only [hf, hr, Bool.false_eq_true, if_false]

lemma convStep_parse_error {srcPath destPath : String} {ow : Bool} {st : CState}
    {n : String} {e : Entry} {msg : String}
    (hf : dirFind (st.fs srcPath) n = some e) (hr : e.isRegular = true)
    (hp : e.parsed = Except.error msg) :
    convStep srcPath destPath ow st n = { st with skipped := st.skipped ++ [n] } := by
  unfold convStep
  simp only [hf, hr, if_true, hp]

lemma convStep_ui {srcPath destPath : String} {ow : Bool} {st : CState}
    {n : String} {e : Entry} {d : Json}
    (hf : dirFind (st.fs srcPath) n = some e) (hr : e.isRegular = true)
    (hp : e.parsed = Except.ok d) (hnapi : isApiGraph d = false) :
    convStep srcPath destPath ow st n = { st with skipped := st.skipped ++ [n] } := by
  unfold convStep
  simp only [hf, hr, if_true, hp, hnapi, Bool.false_eq_true, if_false]

lemma convStep_api_skip {srcPath destPath : String} {st : CState}
    {n : String} {e e1 : Entry} {d : Json}
    (hf : dirFind (st.fs srcPath) n = some e) (hr : e.isRegular = true)
    (hp : e.parsed = Except.ok d) (hapi : isApiGraph d = true)
    (hex : dirFind (st.fs destPath) (targetName n) = some e1) :
    convStep srcPath destPath false st n = st := by
  unfold convStep
  simp only [hf, hr, if_true, hp, hapi, hex]

lemma convStep_write_of_dest_none {srcPath destPath : String} {ow : Bool}
    {st : CState} {n : String} {e : Entry} {d : Json}
    (hf : dirFind (st.fs srcPath) n = some e) (hr : e.isRegular = true)
    (hp : e.parsed = Except.ok d) (hapi : isApiGraph d = true)
    (hex : dirFind (st.fs destPath) (targetName n) = none) :
    convStep srcPath destPath ow st n
      = { st with
          fs := fsWrite st.fs destPath (targetName n) (dumps d) (Except.ok d)
          converted := st.converted ++ [targetName n] } := by
  unfold convStep
  simp only [hf, hr, if_true, hp, hapi, hex]

lemma convStep_write_of_overwrite {srcPath destPath : String}
    {st : CState} {n : String} {e e1 : Entry} {d : Json}
    (hf : dirFind (st.fs srcPath) n = some e) (hr : e.isRegular = true)
    (hp : e.parsed = Except.ok d) (hapi : isApiGraph d = true)
    (hex : dirFind (st.fs destPath) (targetName n) = some e1) :
    convStep srcPath destPath true st n
      = { st with
          fs := fsWrite st.fs destPath (targetName n) (dumps d) (Except.ok d)
          converted := st.converted ++ [targetName n] } := by
  unfold convStep
  simp only [hf, hr, if_true, hp, hapi, hex]

lemma convStep_fs_ne (srcPath destPath : String) (ow : Bool) (st : CState)
    (n : String) (q : String) (hq : q ≠ destPath) :
    (convStep srcPath destPath ow st n).fs q = st.fs q := by
  cases hf : dirFind (st.fs srcPath) n with
  | none => rw [convStep_find_none hf]
  | some e =>
    cases hr : e.isRegular with
    | false => rw [convStep_not_regular hf hr]
    | true =>
      cases hp : e.parsed with
      | error msg => rw [convStep_parse_error hf hr hp]
      | ok d =>
        cases hapi : isApiGraph d with
        | false => rw [convStep_ui hf hr hp hapi]
        | true =>
          cases hex : dirFind (st.fs destPath) (targetName n) with
          | some e1 =>
            cases ow with
            | false => rw [convStep_api_skip hf hr hp hapi hex]
            | true =>
              rw [convStep_write_of_overwrite hf hr hp hapi hex]
              exact fsWrite_ne _ _ _ _ _ _ hq
          | none =>
            rw [convStep_write_of_dest_none hf hr hp hapi hex]
            exact fsWrite_ne _ _ _ _ _ _ hq

lemma skipName_eq_false_of_none {dir0 : Dir} {n : String}
    (hf : dirFind dir0 n = none) : skipName dir0 n = false := by
  unfold skipName
  rw [hf]

lemma convStep_skipped (srcPath destPath : String) (ow : Bool) (st : CState)
    (n : String) :
    (convStep srcPath destPath ow st n).skipped
      = st.skipped ++ (if skipName (st.fs srcPath) n = true then [n] else []) := by
  cases hf : dirFind (st.fs srcPath) n with
  | none =>
    rw [convStep_find_none hf, skipName_eq_false_of_none hf]
    simp
  | some e =>
    cases hr : e.isRegular with
    | false =>
      have hs : skipName (st.fs srcPath) n = false := by
        unfold skipName
        simp only [hf, hr, Bool.false_and]
      rw [convStep_not_regular hf hr, hs]
      simp
    | true =>
      cases hp : e.parsed with
      | error msg =>
        have hs : skipName (st.fs srcPath) n = true := by
          unfold skipName
          simp only [hf, hr, hp, Bool.true_and]
        rw [convStep_parse_error hf hr hp, hs]
        simp
      | ok d =>
        cases hapi : isApiGraph d with
        | false =>
          have hs : skipName (st.fs srcPath) n = true := by
            unfold skipName
            simp only [hf, hr, hp, hapi, Bool.true_and, Bool.not_false]
          rw [convStep_ui hf hr hp hapi, hs]
          simp
        | true =>
          have hs : skipName (st.fs srcPath) n = false := by
            unfold skipName
            simp only [hf, hr, hp, hapi, Bool.true_and, Bool.not_true]
          rw [hs]
          cases hex : dirFind (st.fs destPath) (targetName n) with
          | some e1 =>
            cases ow with
            | false => rw [convStep_api_skip hf hr hp hapi hex]; simp
            | true => rw [convStep_write_of_overwrite hf hr hp hapi hex]; simp
          | none => rw [convStep_write_of_dest_none hf hr hp hapi hex]; simp

lemma convStep_no_conv (srcPath destPath : String) (ow : Bool) (st : CState)
    (n : String) (hnc : convName (st.fs srcPath) n = false) :
    (convStep srcPath destPath ow st n).fs = st.fs
    ∧ (convStep srcPath destPath ow st n).converted = st.converted := by
  cases hf : dirFind (st.fs srcPath) n with
  | none => rw [convStep_find_none hf]; exact ⟨rfl, rfl⟩
  | some e =>
    unfold convName at hnc
    simp only [hf] at hnc
    cases hr : e.isRegular with
    | false => rw [convStep_not_regular hf hr]; exact ⟨rfl, rfl⟩
    | true =>
      simp only [hr, Bool.true_and] at hnc
      cases hp : e.parsed with
      | error msg => rw [convStep_parse_error hf hr hp]; exact ⟨rfl, rfl⟩
      | ok d =>
        simp only [hp] at hnc
        cases hapi : isApiGraph d with
        | false => rw [convStep_ui hf hr hp hapi]; exact ⟨rfl, rfl⟩
        | true =>
          rw [hapi] at hnc
          cases hnc

lemma dirFind_cons (e : Entry) (rest : Dir) (m : String) :
    dirFind (e :: rest) m
      = if (e.name == m) = true then some e else dirFind rest m := by
  by_cases h : (e.name == m) = true
  · rw [if_pos h]
    exact List.find?_cons_of_pos _ h
  · rw [if_neg h]
    exact List.find?_cons_of_neg _ h

lemma dirFind_dirSet_ne (d : Dir) (out t : String) (pr : Except String Json)
    (m : String) (hm : m ≠ out) :
    dirFind (dirSet d out t pr) m = dirFind d m := by
  have hout : (out == m) = false := beq_eq_false_iff_ne.mpr (Ne.symm hm)
  induction d with
  | nil =>
    show dirFind [(⟨out, t, pr, true⟩ : Entry)] m = dirFind [] m
    rw [dirFind_cons, if_neg]
    simp [hout]
  | cons e rest ih =>
    show dirFind (if (e.name == out) = true then (⟨out, t, pr, true⟩ : Entry) :: rest
                  else e :: dirSet rest out t pr) m = dirFind (e :: rest) m
    by_cases hx : (e.name == out) = true
    · rw [if_pos hx]
      have hem : (e.name == m) = false := by
        rw [eq_of_beq hx]
        exact hout
      rw [dirFind_cons, dirFind_cons, if_neg, if_neg] <;> simp [hout, hem]
    · rw [if_neg hx]
      rw [dirFind_cons, dirFind_cons]
      by_cases hem : (e.name == m) = true
      · rw [if_pos hem, if_pos hem]
      · rw [if_neg hem, if_neg hem, ih]

lemma convStep_preserves_find (srcPath destPath : String) (st : CState)
    (n : String) (q m : String) (e0 : Entry)
    (h : dirFind (st.fs q) m = some e0) :
    dirFind ((convStep srcPath destPath false st n).fs q) m = some e0 := by
  cases hf : dirFind (st.fs srcPath) n with
  | none => rw [convStep_find_none hf]; exact h
  | some e =>
    cases hr : e.isRegular with
    | false => rw [convStep_not_regular hf hr]; exact h
    | true =>
      cases hp : e.parsed with
      | error msg => rw [convStep_parse_error hf hr hp]; exact h
      | ok d =>
        cases hapi : isApiGraph d with
        | false => rw [convStep_ui hf hr hp hapi]; exact h
        | true =>
          cases hex : dirFind (st.fs destPath) (targetName n) with
          | some e1 => rw [convStep_api_skip hf hr hp hapi hex]; exact h
          | none =>
            rw [convStep_write_of_dest_none hf hr hp hapi hex]
            show dirFind
              (fsWrite st.fs destPath (targetName n) (dumps d) (Except.ok d) q) m
              = some e0
            by_cases hq : q = destPath
            · subst hq
              rw [fsWrite_self]
              have hm : m ≠ targetName n := by
                intro hme
                rw [hme] at h
                rw [h] at hex
                cases hex
              rw [dirFind_dirSet_ne _ _ _ _ _ hm]
              exact h
            · rw [fsWrite_ne _ _ _ _ _ _ hq]
              exact h

lemma foldl_fs_ne (srcPath destPath : String) (ow : Bool) (q : String)
    (hq : q ≠ destPath) :
    ∀ (names : List String) (st : CState),
      ((names.foldl (convStep srcPath destPath ow) st).fs q = st.fs q) := by
  intro names
  induction names with
  | nil => intro st; rfl
  | cons n ns ih =>
    intro st
    rw [List.foldl_cons, ih (convStep srcPath destPath ow st n)]
    exact convStep_fs_ne srcPath destPath ow st n q hq

lemma foldl_skipped (srcPath destPath : String) (ow : Bool) (dir0 : Dir)
    (hne : srcPath ≠ destPath) :
    ∀ (names : List String) (st : CState), st.fs srcPath = dir0 →
      (names.foldl (convStep srcPath destPath ow) st).skipped
        = st.skipped ++ names.filter (skipName dir0) := by
  intro names
  induction names with
  | nil => intro st hdir; simp
  | cons n ns ih =>
    intro st hdir
    have hfs' : (convStep srcPath destPath ow st n).fs srcPath = dir0 := by
      rw [convStep_fs_ne srcPath destPath ow st n srcPath hne]
      exact hdir
    rw [List.foldl_cons, ih _ hfs', convStep_skipped, hdir, List.filter_cons]
    by_cases hsk : skipName dir0 n = true
    · rw [if_pos hsk, if_pos hsk]
      simp
    · rw [if_neg hsk, if_neg hsk]
      simp

lemma foldl_conv_nil (srcPath destPath : String) (ow : Bool) (dir0 : Dir)
    (hne : srcPath ≠ destPath) :
    ∀ (names : List String) (st : CState), st.fs srcPath = dir0 →
      names.filter (convName dir0) = [] →
      (names.foldl (convStep srcPath destPath ow) st).converted = st.converted := by
  intro names
  induction names with
  | nil => intro st hdir hfil; rfl
  | cons n ns ih =>
    intro st hdir hfil
    rw [List.filter_cons] at hfil
    by_cases hc : convName dir0 n = true
    · rw [if_pos hc] at hfil
      cases hfil
    · rw [if_neg hc] at hfil
      have hnc : convName (st.fs srcPath) n = false := by
        rw [hdir]
        exact Bool.eq_false_iff.mpr hc
      obtain ⟨hfs, hconv⟩ := convStep_no_conv srcPath destPath ow st n hnc
      rw [List.foldl_cons, ih _ (by rw [hfs]; exact hdir) hfil, hconv]

lemma foldl_conv_single (srcPath destPath : String) (ow : Bool) (dir0 : Dir)
    (n0 : String) (hne : srcPath ≠ destPath) :
    ∀ (names : List String) (st : CState), st.fs srcPath = dir0 →
      names.filter (convName dir0) = [n0] →
      dirFind (st.fs destPath) (targetName n0) = none →
      (names.foldl (convStep srcPath destPath ow) st).converted
        = st.converted ++ [targetName n0] := by
  intro names
  induction names with
  | nil =>
    intro st hdir hfil hdest
    cases hfil
  | cons n ns ih =>
    intro st hdir hfil hdest
    rw [List.filter_cons] at hfil
    by_cases hc : convName dir0 n = true
    · rw [if_pos hc] at hfil
      have hn0 : n = n0 := by
        injection hfil with h1 h2
      have hfil' : ns.filter (convName dir0) = [] := by
        injection hfil with h1 h2
      subst hn0
      unfold convName at hc
      cases hf : dirFind dir0 n with
      | none => rw [hf] at hc; cases hc
      | some e =>
        simp only [hf] at hc
        cases hr : e.isRegular with
        | false => rw [hr] at hc; simp at hc
        | true =>
          simp only [hr, Bool.true_and] at hc
          cases hp : e.parsed with
          | error msg => rw [hp] at hc; cases hc
          | ok d =>
            simp only [hp] at hc
            have hf' : dirFind (st.fs srcPath) n = some e := by rw [hdir]; exact hf
            rw [List.foldl_cons, convStep_write_of_dest_none hf' hr hp hc hdest]
            rw [foldl_conv_nil srcPath destPath ow dir0 hne ns _ ?hdir2 hfil']
            case hdir2 =>
              show fsWrite st.fs destPath (targetName n) (dumps d) (Except.ok d) srcPath = dir0
              rw [fsWrite_ne _ _ _ _ _ _ hne]
              exact hdir
    · rw [if_neg hc] at hfil
      have hnc : convName (st.fs srcPath) n = false := by
        rw [hdir]
        exact Bool.eq_false_iff.mpr hc
      obtain ⟨hfs, hconv⟩ := convStep_no_conv srcPath destPath ow st n hnc
      rw [List.foldl_cons, ih _ (by rw [hfs]; exact hdir) hfil, hconv]
      rw [hfs]
      exact hdest

lemma foldl_preserves_find (srcPath destPath : String) (q m : String) (e0 : Entry) :
    ∀ (names : List String) (st : CState), dirFind (st.fs q) m = some e0 →
      dirFind ((names.foldl (convStep srcPath destPath false) st).fs q) m = some e0 := by
  intro names
  induction names with
  | nil => intro st h; exact h
  | cons n ns ih =>
    intro st h
    rw [List.foldl_cons]
    exact ih _ (convStep_preserves_find srcPath destPath st n q m e0 h)

lemma foldl_not_converted (srcPath destPath : String) (t : String) (e0 : Entry) :
    ∀ (names : List String) (st : CState),
      dirFind (st.fs destPath) t = some e0 → t ∉ st.converted →
      t ∉ (names.foldl (convStep srcPath destPath false) st).converted := by
  intro names
  induction names with
  | nil => intro st h hnc; exact hnc
  | cons n ns ih =>
    intro st h hnc
    rw [List.foldl_cons]
    refine ih _ (convStep_preserves_find srcPath destPath st n destPath t e0 h) ?_
    cases hf : dirFind (st.fs srcPath) n with
    | none => rw [convStep_find_none hf]; exact hnc
    | some e =>
      cases hr : e.isRegular with
      | false => rw [convStep_not_regular hf hr]; exact hnc
      | true =>
        cases hp : e.parsed with
        | error msg => rw [convStep_parse_error hf hr hp]; exact hnc
        | ok d =>
          cases hapi : isApiGraph d with
          | false => rw [convStep_ui hf hr hp hapi]; exact hnc
          | true =>
            cases hex : dirFind (st.fs destPath) (targetName n) with
            | some e1 => rw [convStep_api_skip hf hr hp hapi hex]; exact hnc
            | none =>
              rw [convStep_write_of_dest_none hf hr hp hapi hex]
              show t ∉ st.converted ++ [targetName n]
              intro hmem
              rcases List.mem_append.mp hmem with h1 | h1
              · exact hnc h1
              · have ht : t = targetName n := List.mem_singleton.mp h1
                rw [ht] at h
                rw [h] at hex
                cases hex

lemma foldl_not_skipped (srcPath destPath : String) (fname : String)
    (fe : Entry) (d0 : Json)
    (hreg : fe.isRegular = true) (hok : fe.parsed = Except.ok d0)
    (hapi : isApiGraph d0 = true) :
    ∀ (names : List String) (st : CState),
      dirFind (st.fs srcPath) fname = some fe → fname ∉ st.skipped →
      fname ∉ (names.foldl (convStep srcPath destPath false) st).skipped := by
  intro names
  induction names with
  | nil => intro st hfind hns; exact hns
  | cons n ns ih =>
    intro st hfind hns
    rw [List.foldl_cons]
    refine ih _ (convStep_preserves_find srcPath destPath st n srcPath fname fe hfind) ?_
    cases hf : dirFind (st.fs srcPath) n with
    | none => rw [convStep_find_none hf]; exact hns
    | some e =>
      cases hr : e.isRegular with
      | false => rw [convStep_not_regular hf hr]; exact hns
      | true =>
        cases hp : e.parsed with
        | error msg =>
          rw [convStep_parse_error hf hr hp]
          show fname ∉ st.skipped ++ [n]
          intro hmem
          rcases List.mem_append.mp hmem with h1 | h1
          · exact hns h1
          · have hn : fname = n := List.mem_singleton.mp h1
            rw [← hn] at hf
            rw [hfind] at hf
            injection hf with he
            rw [← he] at hp
            rw [hok] at hp
            cases hp
        | ok d =>
          cases hapi2 : isApiGraph d with
          | false =>
            rw [convStep_ui hf hr hp hapi2]
            show fname ∉ st.skipped ++ [n]
            intro hmem
            rcases List.mem_append.mp hmem with h1 | h1
            · exact hns h1
            · have hn : fname = n := List.mem_singleton.mp h1
              rw [← hn] at hf
              rw [hfind] at hf
              injection hf with he
              rw [← he] at hp
              rw [hok] at hp
              injection hp with hd
              rw [← hd] at hapi2
              rw [hapi] at hapi2
              cases hapi2
          | true =>
            cases hex : dirFind (st.fs destPath) (targetName n) with
            | some e1 => rw [convStep_api_skip hf hr hp hapi2 hex]; exact hns
            | none => rw [convStep_write_of_dest_none hf hr hp hapi2 hex]; exact hns

/-- C7: with `overwrite = false`, an API-shaped source file whose
derived destination name already exists leaves the pre-existing
destination entry untouched and is recorded in neither `converted` nor
`skipped`. -/
theorem c7_existing_destination_silent_skip (fs0 : FS) (srcPath destPath : String)
    (globMatch : String → Bool) (fname : String) (fe e0 : Entry) (d : Json)
    (hfind : dirFind (fs0 srcPath) fname = some fe)
    (hreg : fe.isRegular = true)
    (hok : fe.parsed = Except.ok d)
    (hapi : isApiGraph d = true)
    (hdest : dirFind (fs0 destPath) (targetName fname) = some e0) :
    dirFind ((convert_all fs0 srcPath destPath false globMatch).fs destPath)
        (targetName fname) = some e0
    ∧ targetName fname ∉ (convert_all fs0 srcPath destPath false globMatch).converted
    ∧ fname ∉ (convert_all fs0 srcPath destPath false globMatch).skipped := by
  unfold convert_all
  refine ⟨?_, ?_, ?_⟩
  · exact foldl_preserves_find srcPath destPath destPath (targetName fname) e0 _ _ hdest
  · exact foldl_not_converted srcPath destPath (targetName fname) e0 _ _ hdest
      (List.not_mem_nil _)
  · exact foldl_not_skipped srcPath destPath fname fe d hreg hok hapi _ _ hfind
      (List.not_mem_nil _)

/-- API document for the C7 witness. -/
def c7Doc : Json :=
  Json.obj [("2", Json.obj [("class_type", Json.str "C"), ("inputs", Json.obj [])])]

/-- Source file `a.json` (API-shaped). -/
def c7SrcFile : Entry :=
  ⟨"a.json", "\x7b\"2\": \x7b\"class_type\": \"C\", \"inputs\": \x7b\x7d\x7d\x7d",
   Except.ok c7Doc, true⟩

/-- Pre-existing destination file `a.api.json`. -/
def c7DstFile : Entry := ⟨"a.api.json", "1", Except.ok (Json.num 1), true⟩

/-- Filesystem for the C7 witness: source root `s`, destination root `d`. -/
def c7Fs : FS := fun q =>
  if q == "s" then [c7SrcFile] else if q == "d" then [c7DstFile] else []

theorem c7_existing_destination_silent_skip_witness :
    dirFind ((convert_all c7Fs "s" "d" false
        (fun n => strEndsWith n ".json")).fs "d") (targetName "a.json") = some c7DstFile
    ∧ targetName "a.json" ∉ (convert_all c7Fs "s" "d" false
        (fun n => strEndsWith n ".json")).converted
    ∧ "a.json" ∉ (convert_all c7Fs "s" "d" false
        (fun n => strEndsWith n ".json")).skipped :=
  c7_existing_destination_silent_skip c7Fs "s" "d" (fun n => strEndsWith n ".json")
    "a.json" c7SrcFile c7DstFile c7Doc rfl rfl rfl rfl rfl

/-- C8 (amended): when the destination directory is distinct from the
source directory, `convert_all` leaves the source directory exactly as
it was — no file is mutated or deleted. -/
theorem c8_source_dir_preserved (fs0 : FS) (srcPath destPath : String)
    (ow : Bool) (globMatch : String → Bool) (hne : srcPath ≠ destPath) :
    (convert_all fs0 srcPath destPath ow globMatch).fs srcPath = fs0 srcPath := by
  unfold convert_all
  exact foldl_fs_ne srcPath destPath ow srcPath hne _ _

/-- API document used by the C8 counterexample. -/
def c8ApiDoc : Json :=
  Json.obj [("n", Json.obj [("class_type", Json.str "T"), ("inputs", Json.obj [])])]

/-- UI document stored in the pre-existing `a.api.json`. -/
def c8UiDoc : Json := Json.obj [("x", Json.num 1)]

/-- A single directory `w` holding `a.api.json` (UI-shaped) and `a.json`
(API-shaped); used as both source and destination. -/
def c8Fs : FS := fun q =>
  if q == "w" then
    [⟨"a.api.json", "\x7b\"x\": 1\x7d", Except.ok c8UiDoc, true⟩,
     ⟨"a.json", "\x7b\"n\": \x7b\"class_type\": \"T\", \"inputs\": \x7b\x7d\x7d\x7d",
      Except.ok c8ApiDoc, true⟩]
  else []

/-- C8 (counterexample): with `dest_dir = source_dir` and
`overwrite=true`, converting `a.json` overwrites the source directory's
own file `a.api.json` — its stored document flips from UI-shaped to
API-shaped, so `convert_all` can mutate a file of the source
directory. -/
theorem c8_source_mutation_counterexample :
    ((dirFind (c8Fs "w") "a.api.json").map
        (fun e => match e.parsed with
                  | Except.ok d => isApiGraph d
                  | Except.error _ => false) = some false)
    ∧ ((dirFind ((convert_all c8Fs "w" "w" true
          (fun n => strEndsWith n ".json")).fs "w") "a.api.json").map
        (fun e => match e.parsed with
                  | Except.ok d => isApiGraph d
                  | Except.error _ => false) = some true) := by
  exact ⟨by decide, by decide⟩

theorem c8_source_dir_preserved_witness :
    (convert_all c8Fs "w" "v" true (fun n => strEndsWith n ".json")).fs "w"
      = c8Fs "w" :=
  c8_source_dir_preserved c8Fs "w" "v" true (fun n => strEndsWith n ".json")
    (by decide)

/-- C6: for a source directory holding exactly one API-shaped file, one
UI-shaped file and one syntactically invalid file (all matching the glob,
no pre-existing destination files), `converted` is exactly the API
file's derived destination name and `skipped` is exactly the other two
source names (parse failures land in the skip bucket and never abort the
batch). -/
theorem c6_convert_partition (fs0 : FS) (srcPath destPath : String) (ow : Bool)
    (globMatch : String → Bool) (fa fu fb : Entry) (da du : Json) (msg : String)
    (hperm : (fs0 srcPath).Perm [fa, fu, fb])
    (hdest : fs0 destPath = [])
    (hga : globMatch fa.name = true) (hgu : globMatch fu.name = true)
    (hgb : globMatch fb.name = true)
    (hra : fa.isRegular = true) (hru : fu.isRegular = true) (hrb : fb.isRegular = true)
    (hpa : fa.parsed = Except.ok da) (hfa : isApiGraph da = true)
    (hpu : fu.parsed = Except.ok du) (hfu : isApiGraph du = false)
    (hpb : fb.parsed = Except.error msg)
    (hab : fa.name ≠ fu.name) (hac : fa.name ≠ fb.name) (hbc : fu.name ≠ fb.name) :
    (convert_all fs0 srcPath destPath ow globMatch).converted = [targetName fa.name]
    ∧ ((convert_all fs0 srcPath destPath ow globMatch).skipped).Perm
        [fu.name, fb.name] := by
  have hne : srcPath ≠ destPath := by
    intro he
    rw [he, hdest] at hperm
    have hl := hperm.length_eq
    simp at hl
  have hmem3 : ∀ x ∈ fs0 srcPath, x = fa ∨ x = fu ∨ x = fb := by
    intro x hx
    have := hperm.mem_iff.mp hx
    simpa using this
  have hffa : dirFind (fs0 srcPath) fa.name = some fa := by
    unfold dirFind
    apply find?_eq_some_of_unique (fun e => e.name == fa.name) (fs0 srcPath) fa
      (hperm.mem_iff.mpr (by simp)) (beq_self_eq_true _)
    intro b hb hpb2
    rcases hmem3 b hb with h | h | h
    · exact h
    · rw [h] at hpb2
      exact absurd (eq_of_beq hpb2) (Ne.symm hab)
    · rw [h] at hpb2
      exact absurd (eq_of_beq hpb2) (Ne.symm hac)
  have hffu : dirFind (fs0 srcPath) fu.name = some fu := by
    unfold dirFind
    apply find?_eq_some_of_unique (fun e => e.name == fu.name) (fs0 srcPath) fu
      (hperm.mem_iff.mpr (by simp)) (beq_self_eq_true _)
    intro b hb hpb2
    rcases hmem3 b hb with h | h | h
    · rw [h] at hpb2
      exact absurd (eq_of_beq hpb2) hab
    · exact h
    · rw [h] at hpb2
      exact absurd (eq_of_beq hpb2) (Ne.symm hbc)
  have hffb : dirFind (fs0 srcPath) fb.name = some fb := by
    unfold dirFind
    apply find?_eq_some_of_unique (fun e => e.name == fb.name) (fs0 srcPath) fb
      (hperm.mem_iff.mpr (by simp)) (beq_self_eq_true _)
    intro b hb hpb2
    rcases hmem3 b hb with h | h | h
    · rw [h] at hpb2
      exact absurd (eq_of_beq hpb2) hac
    · rw [h] at hpb2
      exact absurd (eq_of_beq hpb2) hbc
    · exact h
  have hsfa : skipName (fs0 srcPath) fa.name = false := by
    unfold skipName
    simp [hffa, hra, hpa, hfa]
  have hsfu : skipName (fs0 srcPath) fu.name = true := by
    unfold skipName
    simp [hffu, hru, hpu, hfu]
  have hsfb : skipName (fs0 srcPath) fb.name = true := by
    unfold skipName
    simp [hffb, hrb, hpb]
  have hcfa : convName (fs0 srcPath) fa.name = true := by
    unfold convName
    simp [hffa, hra, hpa, hfa]
  have hcfu : convName (fs0 srcPath) fu.name = false := by
    unfold convName
    simp [hffu, hru, hpu, hfu]
  have hcfb : convName (fs0 srcPath) fb.name = false := by
    unfold convName
    simp [hffb, hrb, hpb]
  have hfilter : ((fs0 srcPath).filter (fun e => globMatch e.name)).Perm
      [fa, fu, fb] := by
    refine (List.Perm.filter _ hperm).trans ?_
    rw [List.filter_cons, List.filter_cons, List.filter_cons, List.filter_nil]
    rw [hga, hgu, hgb]
    simp
  have hnames : (sortNames (((fs0 srcPath).filter
      (fun e => globMatch e.name)).map Entry.name)).Perm
      [fa.name, fu.name, fb.name] := by
    refine (sortNames_perm _).trans ?_
    have := List.Perm.map Entry.name hfilter
    simpa using this
  constructor
  · have hcfilter : (sortNames (((fs0 srcPath).filter
        (fun e => globMatch e.name)).map Entry.name)).filter
        (convName (fs0 srcPath)) = [fa.name] := by
      apply List.perm_singleton.mp
      refine (List.Perm.filter _ hnames).trans ?_
      rw [List.filter_cons, List.filter_cons, List.filter_cons, List.filter_nil]
      rw [hcfa, hcfu, hcfb]
      simp
    have := foldl_conv_single srcPath destPath ow (fs0 srcPath) fa.name hne
      (sortNames (((fs0 srcPath).filter (fun e => globMatch e.name)).map Entry.name))
      ⟨fs0, [], []⟩ rfl hcfilter (by rw [show (⟨fs0, [], []⟩ : CState).fs destPath
        = fs0 destPath from rfl, hdest]; rfl)
    unfold convert_all
    rw [this]
    simp
  · have hskip := foldl_skipped srcPath destPath ow (fs0 srcPath) hne
      (sortNames (((fs0 srcPath).filter (fun e => globMatch e.name)).map Entry.name))
      ⟨fs0, [], []⟩ rfl
    unfold convert_all
    rw [hskip]
    simp only [List.nil_append]
    refine (List.Perm.filter _ hnames).trans ?_
    rw [List.filter_cons, List.filter_cons, List.filter_cons, List.filter_nil]
    rw [hsfa, hsfu, hsfb]
    simp

/-- API document for the C6 witness. -/
def c6ApiDoc : Json :=
  Json.obj [("1", Json.obj [("class_type", Json.str "K"), ("inputs", Json.obj [])])]

/-- UI document for the C6 witness. -/
def c6UiDoc : Json := Json.obj [("nodes", Json.arr [])]

/-- API-shaped source file. -/
def c6Fa : Entry :=
  ⟨"g.json", "\x7b\"1\": \x7b\"class_type\": \"K\", \"inputs\": \x7b\x7d\x7d\x7d",
   Except.ok c6ApiDoc, true⟩

/-- UI-shaped source file. -/
def c6Fu : Entry := ⟨"u.json", "\x7b\"nodes\": []\x7d", Except.ok c6UiDoc, true⟩

/-- Syntactically invalid source file. -/
def c6Fb : Entry := ⟨"bad.json", "not json", Except.error "Expecting value", true⟩

/-- Source root `s` with the three files; destination root `d` empty. -/
def c6Fs : FS := fun q => if q == "s" then [c6Fa, c6Fu, c6Fb] else []

theorem c6_convert_partition_witness :
    (convert_all c6Fs "s" "d" false (fun n => strEndsWith n ".json")).converted
      = [targetName c6Fa.name]
    ∧ ((convert_all c6Fs "s" "d" false (fun n => strEndsWith n ".json")).skipped).Perm
        [c6Fu.name, c6Fb.name] :=
  c6_convert_partition c6Fs "s" "d" false (fun n => strEndsWith n ".json")
    c6Fa c6Fu c6Fb c6ApiDoc c6UiDoc "Expecting value"
    (List.Perm.refl _) rfl rfl rfl rfl rfl rfl rfl rfl (by decide) rfl (by decide)
    rfl (by decide) (by decide) (by decide)
